import Mathlib

/-!
Verification of the resilient fetch pipeline of the Data_Insights repository.

The definitions below are a shallow embedding of the Python sources:
  - `robust_fetch_table` embeds `robust_fetch_table` from
    `notebooks/run_notebook.py` / `notebooks/01_fetch_and_preview.py`
    (retry loop with substring-based error classification);
  - `runNotebookLoop` embeds the per-table main loop of `run_notebook.py`;
  - `fetch_table_files` embeds `fetch_table_files` from `notebooks/fetch_data.py`
    (streaming per-file processing, part-file naming, Dask aggregation);
  - `estimate_table_size_bytes` and `preflight_estimate_and_confirm` embed the
    size estimator and confirmation prompt of `notebooks/improved_data_fetch.py`;
  - `runStore` embeds the timestamped parquet persistence of the run loop.

Remote behaviour (the delta-sharing client) is an explicit parameter: an
attempt-indexed outcome function for the retry loop, listing results in
`Except`, and per-file success flags for the streaming processor.
-/

/-- A raised Python exception, as observed by the fetch scripts: the code only
inspects `str(type(e))` and `str(e)`, so those two strings are the model. -/
structure PyError where
  typeStr : String
  msg : String
deriving DecidableEq

/-- Boolean test that `needle` occurs at the head of `hay` (over char lists). -/
def charsStartWith : List Char → List Char → Bool
  | [], _ => true
  | _ :: _, [] => false
  | a :: as, b :: bs => a == b && charsStartWith as bs

/-- Boolean test that `needle` occurs somewhere inside `hay` (over char lists). -/
def charsContain (needle : List Char) : List Char → Bool
  | [] => needle.isEmpty
  | b :: bs => charsStartWith needle (b :: bs) || charsContain needle bs

/-- Python's `needle in hay` on strings. -/
def hasSub (hay needle : String) : Bool :=
  charsContain needle.data hay.data

/-- The retryable test of `robust_fetch_table`:
`"FileNotFoundError" in str(type(e)) or "401" in error_msg or
 "NoAuthenticationInformation" in error_msg`. -/
def isRetryable (e : PyError) : Bool :=
  hasSub e.typeStr "FileNotFoundError" || hasSub e.msg "401" ||
    hasSub e.msg "NoAuthenticationInformation"

/-- Result of a call to `robust_fetch_table`: a returned dataframe, a raised
exception, or the trailing `return None` after the loop body never ran. -/
inductive FetchResult (α : Type) where
  | ok (a : α)
  | err (e : PyError)
  | nullRes
deriving DecidableEq

/-- Observable behaviour of one execution of the retry loop: the outcome, how
many times the wrapped operation was called, how many times the loop slept,
and the total seconds slept (`sleeps * delay`, since the delay is fixed). -/
structure RetryRun (α : Type) where
  result : FetchResult α
  calls : Nat
  sleeps : Nat
  slept : Nat
deriving DecidableEq

/-- The retry loop of `robust_fetch_table`, started at iteration `attempt` of
`for attempt in range(max_retries)`. `op k` is the outcome of the remote
`delta_sharing.load_as_pandas` call made on iteration `k`. -/
def robustFetchFrom {α : Type} (op : Nat → Except PyError α) (maxRetries delay : Nat)
    (attempt : Nat) : RetryRun α :=
  if h : attempt < maxRetries then
    match op attempt with
    | Except.ok a => ⟨FetchResult.ok a, 1, 0, 0⟩
    | Except.error e =>
      if isRetryable e then
        if attempt < maxRetries - 1 then
          let r := robustFetchFrom op maxRetries delay (attempt + 1)
          ⟨r.result, r.calls + 1, r.sleeps + 1, r.slept + delay⟩
        else ⟨FetchResult.err e, 1, 0, 0⟩
      else ⟨FetchResult.err e, 1, 0, 0⟩
  else ⟨FetchResult.nullRes, 0, 0, 0⟩
termination_by maxRetries - attempt
decreasing_by omega

/-- Embedding of `robust_fetch_table(share, schema, table, max_retries, delay)` from
`notebooks/run_notebook.py` lines 20-48, with the remote call behaviour
injected as `op`. -/
def robust_fetch_table {α : Type} (op : Nat → Except PyError α) (maxRetries delay : Nat) :
    RetryRun α :=
  robustFetchFrom op maxRetries delay 0

/-- A `(share, schema, table)` triple as enumerated by the catalog client. -/
structure TRef where
  share : String
  schema : String
  name : String
deriving DecidableEq

/-- The message of the exception raised by `run_notebook.py` when
`robust_fetch_table` returns `None`. -/
def failMsg : String := "Failed to fetch table after all retries"

/-- The per-table main loop of `notebooks/run_notebook.py` lines 64-84:
each table is tried inside `try/except`; a returned dataframe is recorded in
`all_dfs` (first component) together with its saved output, a `None` result or
a raised exception is recorded in `failed_tables` (second component) with the
stringified error, and the loop proceeds to the next table. `beh t` is the
outcome of `robust_fetch_table` for table `t`. -/
def runNotebookLoop {α : Type} (beh : TRef → Except PyError (Option α)) :
    List TRef → List (TRef × α) × List (TRef × String)
  | [] => ([], [])
  | t :: rest =>
    match beh t with
    | Except.ok (some df) =>
      let r := runNotebookLoop beh rest
      ((t, df) :: r.1, r.2)
    | Except.ok none =>
      let r := runNotebookLoop beh rest
      (r.1, (t, failMsg) :: r.2)
    | Except.error e =>
      let r := runNotebookLoop beh rest
      (r.1, (t, e.msg) :: r.2)

/-- A remote file descriptor (`add_files` entry): signed URL and size. -/
structure FD where
  url : String
  size : Int
deriving DecidableEq

/-- Python's `f"{i:02d}"`: decimal digits, zero-padded on the left to width 2. -/
def pad2 (i : Nat) : String :=
  if i < 10 then "0" ++ Nat.repr i else Nat.repr i

/-- The part-file name `f"{table.name}_part_{i:02d}.csv"` of `fetch_data.py`. -/
def partName (tbl : String) (i : Nat) : String :=
  tbl ++ ("_part_" ++ (pad2 i ++ ".csv"))

/-- The combined output name `f"{table.name}_combined_{timestamp}.csv"`. -/
def combinedName (tbl ts : String) : String :=
  tbl ++ ("_combined_" ++ (ts ++ ".csv"))

/-- The `for i, f in enumerate(files, start=1)` loop of `fetch_table_files`:
file `i` is downloaded, decoded and written as `partName tbl i`; on any
per-file exception the loop logs and continues with the next file. `pb i`
says whether processing file `i` succeeds. -/
def fetchLoop (tbl : String) (pb : Nat → Bool) : List FD → Nat → List String
  | [], _ => []
  | _ :: rest, i =>
    if pb i then partName tbl i :: fetchLoop tbl pb rest (i + 1)
    else fetchLoop tbl pb rest (i + 1)

/-- Boolean test that `needle` is a final segment of `hay` (over char lists). -/
def charsEndWith (needle hay : List Char) : Bool :=
  charsStartWith needle.reverse hay.reverse

/-- Whether a file name matches the Dask glob `f"{table.name}_part_*.csv"`. -/
def matchesPart (tbl : String) (fname : String) : Bool :=
  charsStartWith (tbl ++ "_part_").data fname.data && charsEndWith ".csv".data fname.data

/-- Embedding of `dd.read_csv(pattern)`: the files of the table directory matching the
`*_part_*.csv` glob, in lexical (directory) order. -/
def globParts (tbl : String) (dir : List String) : List String :=
  dir.filter (fun f => matchesPart tbl f)

/-- Observable outcome of `fetch_table_files` for one table: the part files
written this run, the combined CSV written (if any), and the returned Dask
DataFrame (modelled as the list of part files the lazy view reads), `none`
when the function returns `None`. -/
structure FilesResult where
  saved : List String
  combined : Option String
  ddf : Option (List String)
deriving DecidableEq

/-- Embedding of `fetch_table_files(client, table, base_dir)` from `notebooks/fetch_data.py`
lines 49-134: list the remote files (`listFiles`, `Except.error` when the
listing or any other step raises and the outer `except` returns `None`);
return `None` on an empty listing; stream each file, skipping failures;
if no file succeeded return `None`, otherwise build the lazy view over the
`*_part_*.csv` glob of the table directory (fresh for this run, so it holds
exactly the saved part files) and write the combined CSV. -/
def fetch_table_files (tbl ts : String) (listFiles : Except PyError (List FD))
    (pb : Nat → Bool) : FilesResult :=
  match listFiles with
  | Except.error _ => ⟨[], none, none⟩
  | Except.ok files =>
    if files.isEmpty then ⟨[], none, none⟩
    else
      let saved := fetchLoop tbl pb files 1
      if saved.isEmpty then ⟨saved, none, none⟩
      else ⟨saved, some (combinedName tbl ts), some (globParts tbl saved)⟩

/-- The accounting of `fetch_data.py`'s `main` loop lines 162-173: a table is
appended to `successful_tables` exactly when `fetch_table_files` returned a
DataFrame rather than `None`. -/
def csvSuccessTables (tables : List TRef) (resBeh : TRef → FilesResult) : List TRef :=
  tables.filter (fun t => ((resBeh t).ddf).isSome)

/-- The remote catalog as seen by `estimate_table_size_bytes`: the result of
`list_all_tables()` and of `list_files_in_table` per table, either of which
may raise. -/
structure Remote where
  listTablesRes : Except PyError (List TRef)
  listFilesRes : TRef → Except PyError (List FD)

/-- The linear-scan match `t.share == share and t.schema == schema and
t.name == table` of `estimate_table_size_bytes`. -/
def matchTR (share schema table : String) (t : TRef) : Bool :=
  t.share == share && t.schema == schema && t.name == table

/-- Embedding of `estimate_table_size_bytes(share, schema, table)` from
`notebooks/improved_data_fetch.py` lines 52-70: scan the table listing for
the triple, sum the `size` fields of its file descriptors, and return 0 when
the table is not found or any remote call raises. -/
def estimate_table_size_bytes (rem : Remote) (share schema table : String) : Int :=
  match rem.listTablesRes with
  | Except.error _ => 0
  | Except.ok ts =>
    match ts.find? (matchTR share schema table) with
    | none => 0
    | some tgt =>
      match rem.listFilesRes tgt with
      | Except.error _ => 0
      | Except.ok files => (files.map FD.size).sum

/-- The grand total computed by `preflight_estimate_and_confirm`. -/
def preflightTotal (rem : Remote) (tables : List TRef) : Int :=
  (tables.map (fun t => estimate_table_size_bytes rem t.share t.schema t.name)).sum

/-- Python `str.isspace` characters relevant to `.strip()`. -/
def isPySpace (c : Char) : Bool :=
  c == ' ' || c == '\t' || c == '\n' || c == '\r' || c == '\x0b' || c == '\x0c'

/-- Python `.strip()` on the character list of a string. -/
def pyStrip (l : List Char) : List Char :=
  ((l.dropWhile isPySpace).reverse.dropWhile isPySpace).reverse

/-- Python `.lower()` on the character list of a string. -/
def pyLower (l : List Char) : List Char :=
  l.map Char.toLower

/-- Embedding of `answer = input(...).strip().lower()` with `answer = "n"` on `EOFError`;
`inp = none` models end-of-input. -/
def normAnswer (inp : Option String) : List Char :=
  match inp with
  | none => "n".data
  | some s => pyLower (pyStrip s.data)

/-- Embedding of `proceed = answer in ("y", "yes")`. -/
def answerAffirmative (inp : Option String) : Bool :=
  normAnswer inp == "y".data || normAnswer inp == "yes".data

/-- Embedding of `preflight_estimate_and_confirm()` from `improved_data_fetch.py` lines
73-103: returns `False` when the catalog lists no tables, otherwise computes
the per-table estimates and grand total (printed only) and returns whether
the operator's answer is affirmative. -/
def preflight_estimate_and_confirm (rem : Remote) (tables : List TRef)
    (inp : Option String) : Bool :=
  if tables.isEmpty then false
  else
    let _total := preflightTotal rem tables
    answerAffirmative inp

/-- Observable outcome of `improved_data_fetch.py`'s `main`: the sample
dataframe fetched before the prompt, and the tables fetched by the full run. -/
structure ImpMainResult (α : Type) where
  sample : Option α
  full : List (TRef × α)
deriving DecidableEq

/-- Embedding of `main()` from `improved_data_fetch.py` lines 213-246: fetch a single-table
sample; if it succeeded, run the pre-flight confirmation and perform the full
fetch only on an affirmative answer, otherwise set `all_dfs = {}`. `fullRes`
is the result the full fetch would produce. -/
def improvedMain {α : Type} (rem : Remote) (tables : List TRef) (sampleRes : Option α)
    (inp : Option String) (fullRes : List (TRef × α)) : ImpMainResult α :=
  match sampleRes with
  | none => ⟨none, []⟩
  | some d =>
    if preflight_estimate_and_confirm rem tables inp then ⟨some d, fullRes⟩
    else ⟨some d, []⟩

/-- The timestamped parquet name `f"{t.name}_{timestamp}.parquet"` of
`run_notebook.py` line 76. -/
def outName (t : TRef) (ts : String) : String :=
  t.name ++ ("_" ++ (ts ++ ".parquet"))

/-- Read a file from the modelled output directory (latest write wins). -/
def lookupFile {α : Type} (st : List (String × α)) (n : String) : Option α :=
  match st with
  | [] => none
  | p :: rest => if p.1 == n then some p.2 else lookupFile rest n

/-- Write (or overwrite) a file in the modelled output directory. -/
def writeOut {α : Type} (st : List (String × α)) (n : String) (d : α) :
    List (String × α) :=
  (n, d) :: st

/-- The persistence of the `run_notebook.py` main loop: each successfully
fetched table's dataframe is written to its timestamped parquet file before
the loop moves to the next table. `beh t` is the dataframe fetched for `t`,
`none` when fetching failed. -/
def runStore {α : Type} (beh : TRef → Option α) (ts : String) :
    List TRef → List (String × α) → List (String × α)
  | [], st => st
  | t :: rest, st =>
    match beh t with
    | some d => runStore beh ts rest (writeOut st (outName t ts) d)
    | none => runStore beh ts rest st

/-- Concrete retry behaviour: a retryable 401 on the first attempt, success
afterwards. -/
def wRetryOp : Nat → Except PyError Nat :=
  fun k => if k = 0 then Except.error ⟨"SomeError", "HTTP 401 Unauthorized"⟩ else Except.ok 7

/-- Concrete behaviour raising a non-retryable error on every attempt. -/
def wFatalOp : Nat → Except PyError Nat :=
  fun _ => Except.error ⟨"ValueError", "bad parquet"⟩

/-- Concrete table references used to evaluate the theorems. -/
def wT1 : TRef := ⟨"s", "sch", "orders"⟩

def wT2 : TRef := ⟨"s", "sch", "items"⟩

def wFD : FD := ⟨"https://x/a", 10⟩

/-- Concrete per-file behaviour: file 2 fails, all others succeed. -/
def wPb : Nat → Bool := fun i => !(i == 2)

/-- Concrete remote: listing succeeds, `wT1` has two files of sizes 10 and 5,
listing the files of any other table raises. -/
def wRem : Remote :=
  ⟨Except.ok [wT1, wT2],
   fun t => if t == wT1 then Except.ok [wFD, ⟨"https://x/b", 5⟩]
            else Except.error ⟨"ConnectionError", "timeout"⟩⟩

theorem robustFetchFrom_ok {α : Type} (op : Nat → Except PyError α) (mr del a : Nat)
    (v : α) (h : a < mr) (hop : op a = Except.ok v) :
    robustFetchFrom op mr del a = ⟨FetchResult.ok v, 1, 0, 0⟩ := by
  rw [robustFetchFrom, dif_pos h, hop]

theorem robustFetchFrom_fatal {α : Type} (op : Nat → Except PyError α) (mr del a : Nat)
    (e : PyError) (h : a < mr) (hop : op a = Except.error e) (hf : isRetryable e = false) :
    robustFetchFrom op mr del a = ⟨FetchResult.err e, 1, 0, 0⟩ := by
  rw [robustFetchFrom, dif_pos h, hop]
  simp [hf]

theorem robustFetchFrom_last {α : Type} (op : Nat → Except PyError α) (mr del a : Nat)
    (e : PyError) (h : a < mr) (hlast : ¬ a < mr - 1) (hop : op a = Except.error e)
    (hr : isRetryable e = true) :
    robustFetchFrom op mr del a = ⟨FetchResult.err e, 1, 0, 0⟩ := by
  rw [robustFetchFrom, dif_pos h, hop]
  simp [hr, hlast]

theorem robustFetchFrom_retry {α : Type} (op : Nat → Except PyError α) (mr del a : Nat)
    (e : PyError) (h : a < mr - 1) (hop : op a = Except.error e) (hr : isRetryable e = true) :
    robustFetchFrom op mr del a =
      ⟨(robustFetchFrom op mr del (a + 1)).result,
       (robustFetchFrom op mr del (a + 1)).calls + 1,
       (robustFetchFrom op mr del (a + 1)).sleeps + 1,
       (robustFetchFrom op mr del (a + 1)).slept + del⟩ := by
  have h' : a < mr := by omega
  rw [robustFetchFrom, dif_pos h', hop]
  simp [hr, h]

theorem robustFetchFrom_all_retryable_ok {α : Type} (op : Nat → Except PyError α)
    (mr del N : Nat) (v : α) (hN : N < mr)
    (hpre : ∀ k, k < N → ∃ e, op k = Except.error e ∧ isRetryable e = true)
    (hok : op N = Except.ok v) :
    ∀ s, s ≤ N →
      robustFetchFrom op mr del s = ⟨FetchResult.ok v, N + 1 - s, N - s, (N - s) * del⟩ := by
  have key : ∀ d s, s ≤ N → N - s = d →
      robustFetchFrom op mr del s = ⟨FetchResult.ok v, N + 1 - s, N - s, (N - s) * del⟩ := by
    intro d
    induction d with
    | zero =>
      intro s hs hd
      have hsN : s = N := by omega
      subst hsN
      rw [robustFetchFrom_ok op mr del s v hN hok]
      simp
    | succ d ih =>
      intro s hs hd
      have hsN : s < N := by omega
      obtain ⟨e, hop, hr⟩ := hpre s hsN
      have hlt : s < mr - 1 := by omega
      rw [robustFetchFrom_retry op mr del s e hlt hop hr,
        ih (s + 1) (by omega) (by omega)]
      simp only [RetryRun.mk.injEq]
      refine ⟨trivial, by omega, by omega, ?_⟩
      have hsub : N - s = (N - (s + 1)) + 1 := by omega
      rw [hsub, Nat.succ_mul]
  exact fun s hs => key (N - s) s hs rfl

theorem robustFetchFrom_all_retryable_exhaust {α : Type} (op : Nat → Except PyError α)
    (mr del : Nat)
    (hpre : ∀ k, k < mr → ∃ e, op k = Except.error e ∧ isRetryable e = true) :
    ∀ s, s < mr → ∃ e, op (mr - 1) = Except.error e ∧ isRetryable e = true ∧
      robustFetchFrom op mr del s =
        ⟨FetchResult.err e, mr - s, mr - 1 - s, (mr - 1 - s) * del⟩ := by
  have key : ∀ d s, s < mr → mr - 1 - s = d →
      ∃ e, op (mr - 1) = Except.error e ∧ isRetryable e = true ∧
        robustFetchFrom op mr del s =
          ⟨FetchResult.err e, mr - s, mr - 1 - s, (mr - 1 - s) * del⟩ := by
    intro d
    induction d with
    | zero =>
      intro s hs hd
      have hsN : s = mr - 1 := by omega
      obtain ⟨e, hop, hr⟩ := hpre s hs
      refine ⟨e, by rw [← hsN]; exact hop, hr, ?_⟩
      rw [robustFetchFrom_last op mr del s e hs (by omega) hop hr]
      simp only [RetryRun.mk.injEq]
      refine ⟨trivial, by omega, by omega, by rw [hd]; simp⟩
    | succ d ih =>
      intro s hs hd
      obtain ⟨e, hop, hr⟩ := hpre s hs
      have hlt : s < mr - 1 := by omega
      obtain ⟨e2, hop2, hr2, heq⟩ := ih (s + 1) (by omega) (by omega)
      refine ⟨e2, hop2, hr2, ?_⟩
      rw [robustFetchFrom_retry op mr del s e hlt hop hr, heq]
      simp only [RetryRun.mk.injEq]
      refine ⟨trivial, by omega, by omega, ?_⟩
      have hsub : mr - 1 - s = (mr - 1 - (s + 1)) + 1 := by omega
      rw [hsub, Nat.succ_mul]
  exact fun s hs => key (mr - 1 - s) s hs rfl

theorem robustFetchFrom_calls_le {α : Type} (op : Nat → Except PyError α) (mr del : Nat) :
    ∀ s, (robustFetchFrom op mr del s).calls ≤ mr - s := by
  have key : ∀ d s, mr - s = d → (robustFetchFrom op mr del s).calls ≤ mr - s := by
    intro d
    induction d with
    | zero =>
      intro s hd
      have hs : ¬ s < mr := by omega
      rw [robustFetchFrom, dif_neg hs]
      simp
    | succ d ih =>
      intro s hd
      have hs : s < mr := by omega
      cases hop : op s with
      | ok v =>
        rw [robustFetchFrom_ok op mr del s v hs hop]
        show 1 ≤ mr - s
        omega
      | error e =>
        by_cases hr : isRetryable e = true
        · by_cases hlast : s < mr - 1
          · rw [robustFetchFrom_retry op mr del s e hlast hop hr]
            have h2 := ih (s + 1) (by omega)
            show (robustFetchFrom op mr del (s + 1)).calls + 1 ≤ mr - s
            omega
          · rw [robustFetchFrom_last op mr del s e hs hlast hop hr]
            show 1 ≤ mr - s
            omega
        · have hr2 : isRetryable e = false := by
            revert hr; cases isRetryable e <;> simp
          rw [robustFetchFrom_fatal op mr del s e hs hop hr2]
          show 1 ≤ mr - s
          omega
  exact fun s => key (mr - s) s rfl

theorem robustFetchFrom_ne_null {α : Type} (op : Nat → Except PyError α) (mr del : Nat) :
    ∀ s, s < mr → (robustFetchFrom op mr del s).result ≠ FetchResult.nullRes := by
  have key : ∀ d s, s < mr → mr - 1 - s = d →
      (robustFetchFrom op mr del s).result ≠ FetchResult.nullRes := by
    intro d
    induction d with
    | zero =>
      intro s hs hd
      rw [robustFetchFrom, dif_pos hs]
      cases hop : op s with
      | ok v => simp
      | error e =>
        have hlast : ¬ s < mr - 1 := by omega
        by_cases hr : isRetryable e
        · simp [hr, hlast]
        · simp [hr]
    | succ d ih =>
      intro s hs hd
      rw [robustFetchFrom, dif_pos hs]
      cases hop : op s with
      | ok v => simp
      | error e =>
        by_cases hr : isRetryable e
        · have hlast : s < mr - 1 := by omega
          simp only [hr, if_true, hlast]
          exact ih (s + 1) (by omega) (by omega)
        · simp [hr]
  exact fun s hs => key (mr - 1 - s) s hs rfl

theorem robustFetchFrom_ok_origin {α : Type} (op : Nat → Except PyError α) (mr del : Nat) :
    ∀ s v, (robustFetchFrom op mr del s).result = FetchResult.ok v →
      ∃ k, s ≤ k ∧ k < mr ∧ op k = Except.ok v := by
  have key : ∀ d s v, mr - s = d → (robustFetchFrom op mr del s).result = FetchResult.ok v →
      ∃ k, s ≤ k ∧ k < mr ∧ op k = Except.ok v := by
    intro d
    induction d with
    | zero =>
      intro s v hd hres
      have hs : ¬ s < mr := by omega
      rw [robustFetchFrom, dif_neg hs] at hres
      simp at hres
    | succ d ih =>
      intro s v hd hres
      have hs : s < mr := by omega
      rw [robustFetchFrom, dif_pos hs] at hres
      cases hop : op s with
      | ok w =>
        rw [hop] at hres
        simp at hres
        exact ⟨s, le_refl s, hs, by rw [hop, hres]⟩
      | error e =>
        rw [hop] at hres
        by_cases hr : isRetryable e
        · by_cases hlast : s < mr - 1
          · simp only [hr, if_true, hlast] at hres
            obtain ⟨k, hk1, hk2, hk3⟩ := ih (s + 1) v (by omega) hres
            exact ⟨k, by omega, hk2, hk3⟩
          · simp [hr, hlast] at hres
        · simp [hr] at hres
  exact fun s v => key (mr - s) s v rfl

/-- C1: for every operation, `max_retries >= 1` and `base_delay`, the retry
loop makes at most `max_retries` calls; while the injected errors are
retryable it sleeps `base_delay` seconds after each failed attempt before the
last and retries; a success on attempt `N` (0-based) is returned immediately
after exactly `min(max_retries, N+1)` calls; if every attempt up to the
budget fails retryably, the last attempt's error is re-raised after exactly
`max_retries` calls — in both cases with a `base_delay` sleep between all but
the last attempt (`calls - 1` sleeps, `(calls - 1) * base_delay` seconds). -/
theorem robust_fetch_retry_policy {α : Type} (op : Nat → Except PyError α)
    (mr del N : Nat) (hmr : 1 ≤ mr)
    (hpre : ∀ k, k < N → ∃ e, op k = Except.error e ∧ isRetryable e = true) :
    (∀ op2 : Nat → Except PyError α, (robust_fetch_table op2 mr del).calls ≤ mr)
    ∧ (∀ v : α, N < mr → op N = Except.ok v →
        robust_fetch_table op mr del =
          ⟨FetchResult.ok v, min mr (N + 1), min mr (N + 1) - 1,
           (min mr (N + 1) - 1) * del⟩)
    ∧ (mr ≤ N →
        ∃ e, op (mr - 1) = Except.error e ∧ isRetryable e = true ∧
          robust_fetch_table op mr del =
            ⟨FetchResult.err e, min mr (N + 1), min mr (N + 1) - 1,
             (min mr (N + 1) - 1) * del⟩) := by
  refine ⟨?_, ?_, ?_⟩
  · intro op2
    have := robustFetchFrom_calls_le op2 mr del 0
    simpa [robust_fetch_table] using this
  · intro v hN hok
    have hmin : min mr (N + 1) = N + 1 := by omega
    rw [hmin]
    have := robustFetchFrom_all_retryable_ok op mr del N v hN hpre hok 0 (by omega)
    simpa [robust_fetch_table] using this
  · intro hle
    have hmin : min mr (N + 1) = mr := by omega
    rw [hmin]
    have hpre2 : ∀ k, k < mr → ∃ e, op k = Except.error e ∧ isRetryable e = true :=
      fun k hk => hpre k (by omega)
    obtain ⟨e, hop, hr, heq⟩ := robustFetchFrom_all_retryable_exhaust op mr del hpre2 0 (by omega)
    refine ⟨e, hop, hr, ?_⟩
    simpa [robust_fetch_table] using heq

/-- C1 witness: a retryable 401 on attempt 1 and success on attempt 2 with
`max_retries = 3`, `base_delay = 2` gives the result of attempt 2 after
exactly 2 calls, 1 sleep, 2 seconds slept. -/
theorem robust_fetch_retry_policy_check :
    robust_fetch_table wRetryOp 3 2 = ⟨FetchResult.ok 7, 2, 1, 2⟩ := by
  have h := (robust_fetch_retry_policy wRetryOp 3 2 1 (by decide)
    (by
      intro k hk
      refine ⟨⟨"SomeError", "HTTP 401 Unauthorized"⟩, ?_, by decide⟩
      have hk0 : k = 0 := by omega
      rw [hk0]
      rfl)).2.1 7 (by decide) rfl
  exact h

/-- C2: an error is classified retryable exactly when `"FileNotFoundError"`
occurs in its type string, or `"401"` or `"NoAuthenticationInformation"` in
its message; any other error is fatal: raised on the first of `mr` attempts
it is re-raised immediately after exactly one call, with no sleep. -/
theorem robust_fetch_fatal_immediate {α : Type} (op : Nat → Except PyError α)
    (mr del : Nat) (e : PyError) (hmr : 1 ≤ mr) (hop : op 0 = Except.error e)
    (hfatal : hasSub e.typeStr "FileNotFoundError" = false ∧ hasSub e.msg "401" = false ∧
      hasSub e.msg "NoAuthenticationInformation" = false) :
    (∀ e2 : PyError, isRetryable e2 =
        (hasSub e2.typeStr "FileNotFoundError" || hasSub e2.msg "401" ||
          hasSub e2.msg "NoAuthenticationInformation"))
    ∧ isRetryable e = false
    ∧ robust_fetch_table op mr del = ⟨FetchResult.err e, 1, 0, 0⟩ := by
  obtain ⟨hf1, hf2, hf3⟩ := hfatal
  have hret : isRetryable e = false := by
    rw [isRetryable, hf1, hf2, hf3]
    rfl
  refine ⟨fun e2 => rfl, hret, ?_⟩
  rw [robust_fetch_table, robustFetchFrom_fatal op mr del 0 e (by omega) hop hret]

/-- C2 witness: a `ValueError` on attempt 1 of 3 causes exactly one call and
immediate propagation. -/
theorem robust_fetch_fatal_immediate_check :
    robust_fetch_table wFatalOp 3 2 = ⟨FetchResult.err ⟨"ValueError", "bad parquet"⟩, 1, 0, 0⟩ :=
  (robust_fetch_fatal_immediate wFatalOp 3 2 ⟨"ValueError", "bad parquet"⟩ (by decide) rfl
    ⟨by decide, by decide, by decide⟩).2.2

/-- C10: for `max_retries >= 1` the function never reaches the trailing
`return None` — it returns the value of some successful remote call or
raises; with `max_retries = 0` it returns `None` after zero remote calls and
zero sleeps. -/
theorem robust_fetch_none_only_zero_retries {α : Type} (op : Nat → Except PyError α)
    (mr del : Nat) :
    (1 ≤ mr → (robust_fetch_table op mr del).result ≠ FetchResult.nullRes)
    ∧ (∀ v : α, (robust_fetch_table op mr del).result = FetchResult.ok v →
        ∃ k, k < mr ∧ op k = Except.ok v)
    ∧ robust_fetch_table op 0 del = ⟨FetchResult.nullRes, 0, 0, 0⟩ := by
  refine ⟨?_, ?_, ?_⟩
  · intro hmr
    exact robustFetchFrom_ne_null op mr del 0 (by omega)
  · intro v hres
    obtain ⟨k, _, hk2, hk3⟩ := robustFetchFrom_ok_origin op mr del 0 v hres
    exact ⟨k, hk2, hk3⟩
  · rw [robust_fetch_table, robustFetchFrom]
    simp

/-- C10 witness: with `max_retries = 3` the result of the concrete retrying
run is not the `None` fallthrough, and with `max_retries = 0` the concrete
operation is never called. -/
theorem robust_fetch_none_only_zero_retries_check :
    (robust_fetch_table wRetryOp 3 2).result ≠ FetchResult.nullRes
    ∧ robust_fetch_table wRetryOp 0 2 = ⟨FetchResult.nullRes, 0, 0, 0⟩ :=
  ⟨(robust_fetch_none_only_zero_retries wRetryOp 3 2).1 (by decide),
   (robust_fetch_none_only_zero_retries wRetryOp 0 2).2.2⟩

/-- C3: for every per-table behaviour, the `run_notebook.py` main loop
processes the catalog listing in order (both the success and the failure
records are sublists of the listing, hence in listing order), records every
enumerated table exactly once as a success or a failure (the recorded tables
are a permutation of the listing), and the success and failure counts sum to
the number of enumerated tables — no table is dropped and no per-table error
aborts the run. -/
theorem run_loop_accounts_every_table {α : Type} (beh : TRef → Except PyError (Option α))
    (tables : List TRef) :
    (runNotebookLoop beh tables).1.length + (runNotebookLoop beh tables).2.length
        = tables.length
    ∧ List.Perm
        ((runNotebookLoop beh tables).1.map Prod.fst ++
          (runNotebookLoop beh tables).2.map Prod.fst) tables
    ∧ List.Sublist ((runNotebookLoop beh tables).1.map Prod.fst) tables
    ∧ List.Sublist ((runNotebookLoop beh tables).2.map Prod.fst) tables := by
  induction tables with
  | nil => simp [runNotebookLoop]
  | cons t rest ih =>
    obtain ⟨ihlen, ihperm, ihsub1, ihsub2⟩ := ih
    cases hbeh : beh t with
    | ok o =>
      cases o with
      | some df =>
        simp only [runNotebookLoop, hbeh]
        refine ⟨by simp; omega, ?_, ?_, ?_⟩
        · simpa using List.Perm.cons t ihperm
        · simpa using List.Sublist.cons₂ t ihsub1
        · exact List.Sublist.cons t ihsub2
      | none =>
        simp only [runNotebookLoop, hbeh]
        refine ⟨by simp; omega, ?_, ?_, ?_⟩
        · simp only [List.map_cons]
          exact List.Perm.trans List.perm_middle (List.Perm.cons t ihperm)
        · exact List.Sublist.cons t ihsub1
        · simpa using List.Sublist.cons₂ t ihsub2
    | error e =>
      simp only [runNotebookLoop, hbeh]
      refine ⟨by simp; omega, ?_, ?_, ?_⟩
      · simp only [List.map_cons]
        exact List.Perm.trans List.perm_middle (List.Perm.cons t ihperm)
      · exact List.Sublist.cons t ihsub1
      · simpa using List.Sublist.cons₂ t ihsub2

theorem charsStartWith_append (p r : List Char) : charsStartWith p (p ++ r) = true := by
  induction p with
  | nil => rfl
  | cons a as ih => simp [charsStartWith, ih]

theorem charsEndWith_append (x s : List Char) : charsEndWith s (x ++ s) = true := by
  rw [charsEndWith, List.reverse_append]
  exact charsStartWith_append s.reverse x.reverse

theorem matchesPart_partName (tbl : String) (i : Nat) :
    matchesPart tbl (partName tbl i) = true := by
  have hdata : (partName tbl i).data =
      tbl.data ++ ("_part_".data ++ ((pad2 i).data ++ ".csv".data)) := rfl
  have hpre : charsStartWith (tbl ++ "_part_").data (partName tbl i).data = true := by
    have h1 : (tbl ++ "_part_").data = tbl.data ++ "_part_".data := rfl
    have h2 : (partName tbl i).data =
        (tbl.data ++ "_part_".data) ++ ((pad2 i).data ++ ".csv".data) := by
      rw [hdata, List.append_assoc]
    rw [h1, h2]
    exact charsStartWith_append _ _
  have hsuf : charsEndWith ".csv".data (partName tbl i).data = true := by
    have h2 : (partName tbl i).data =
        (tbl.data ++ ("_part_".data ++ (pad2 i).data)) ++ ".csv".data := by
      rw [hdata]
      simp [List.append_assoc]
    rw [h2]
    exact charsEndWith_append _ _
  rw [matchesPart, hpre, hsuf]
  rfl

/-- C4: for a table whose remote listing is `[F1, F2, F3]` where processing
file 2 fails and files 1 and 3 succeed, the streaming loop skips file 2 and
continues: exactly the two part files `<tbl>_part_01.csv` and
`<tbl>_part_03.csv` are produced (index 02 skipped implicitly), and the
aggregation succeeds, returning the lazy view over those two files. -/
theorem skip_bad_file_two_parts (tbl ts : String) (f1 f2 f3 : FD) (pb : Nat → Bool)
    (h1 : pb 1 = true) (h2 : pb 2 = false) (h3 : pb 3 = true) :
    (fetch_table_files tbl ts (Except.ok [f1, f2, f3]) pb).saved
        = [partName tbl 1, partName tbl 3]
    ∧ partName tbl 1 = tbl ++ "_part_01.csv"
    ∧ partName tbl 3 = tbl ++ "_part_03.csv"
    ∧ (fetch_table_files tbl ts (Except.ok [f1, f2, f3]) pb).ddf
        = some [partName tbl 1, partName tbl 3]
    ∧ (fetch_table_files tbl ts (Except.ok [f1, f2, f3]) pb).saved.length = 2 := by
  have hsaved : fetchLoop tbl pb [f1, f2, f3] 1 = [partName tbl 1, partName tbl 3] := by
    simp [fetchLoop, h1, h2, h3]
  have hres : fetch_table_files tbl ts (Except.ok [f1, f2, f3]) pb =
      ⟨[partName tbl 1, partName tbl 3], some (combinedName tbl ts),
       some (globParts tbl [partName tbl 1, partName tbl 3])⟩ := by
    rw [fetch_table_files]
    simp only [List.isEmpty_cons, hsaved]
    rfl
  have hglob : globParts tbl [partName tbl 1, partName tbl 3]
      = [partName tbl 1, partName tbl 3] := by
    simp [globParts, List.filter, matchesPart_partName]
  refine ⟨by rw [hres], ?_, ?_, by rw [hres, hglob], by rw [hres]; rfl⟩
  · exact congrArg (fun x => tbl ++ x) (by decide)
  · exact congrArg (fun x => tbl ++ x) (by decide)

/-- C4 witness: the concrete per-file behaviour failing exactly on file 2
produces the two part files for indices 01 and 03 and a successful
aggregation over them. -/
theorem skip_bad_file_two_parts_check :
    (fetch_table_files "orders" "20240101_000000" (Except.ok [wFD, wFD, wFD]) wPb).saved
        = [partName "orders" 1, partName "orders" 3]
    ∧ (fetch_table_files "orders" "20240101_000000" (Except.ok [wFD, wFD, wFD]) wPb).ddf
        = some [partName "orders" 1, partName "orders" 3] := by
  have h := skip_bad_file_two_parts "orders" "20240101_000000" wFD wFD wFD wPb rfl rfl rfl
  exact ⟨h.1, h.2.2.2.1⟩

theorem fetch_table_files_ok (tbl ts : String) (files : List FD) (pb : Nat → Bool) :
    fetch_table_files tbl ts (Except.ok files) pb =
      if files.isEmpty then ⟨[], none, none⟩
      else if (fetchLoop tbl pb files 1).isEmpty then ⟨fetchLoop tbl pb files 1, none, none⟩
      else ⟨fetchLoop tbl pb files 1, some (combinedName tbl ts),
            some (globParts tbl (fetchLoop tbl pb files 1))⟩ := rfl

/-- C5: if zero files were successfully processed, `fetch_table_files`
returns `None` (no combined file written) and in the orchestrator's
accounting a table whose fetch returned `None` never appears among the
successful tables; if at least one part file was produced, the returned lazy
view reads exactly the files matching the table's `*_part_*.csv` pattern and
one combined output file is written. -/
theorem aggregate_none_or_view (tbl ts : String) (lf : Except PyError (List FD))
    (pb : Nat → Bool) :
    ((fetch_table_files tbl ts lf pb).saved = [] →
        (fetch_table_files tbl ts lf pb).ddf = none
        ∧ (fetch_table_files tbl ts lf pb).combined = none)
    ∧ ((fetch_table_files tbl ts lf pb).saved ≠ [] →
        (fetch_table_files tbl ts lf pb).ddf
            = some (globParts tbl ((fetch_table_files tbl ts lf pb).saved))
        ∧ (fetch_table_files tbl ts lf pb).combined = some (combinedName tbl ts))
    ∧ (∀ (tables : List TRef) (resBeh : TRef → FilesResult) (t : TRef),
        (resBeh t).ddf = none → t ∉ csvSuccessTables tables resBeh) := by
  refine ⟨?_, ?_, ?_⟩
  · intro hsaved
    cases lf with
    | error e => exact ⟨rfl, rfl⟩
    | ok files =>
      rw [fetch_table_files_ok] at hsaved ⊢
      by_cases hf : files.isEmpty
      · rw [if_pos hf]
        exact ⟨rfl, rfl⟩
      · rw [if_neg hf] at hsaved ⊢
        by_cases hs : (fetchLoop tbl pb files 1).isEmpty
        · rw [if_pos hs]
          exact ⟨rfl, rfl⟩
        · rw [if_neg hs] at hsaved
          have hloop : fetchLoop tbl pb files 1 = [] := hsaved
          exact absurd (List.isEmpty_iff.mpr hloop) hs
  · intro hsaved
    cases lf with
    | error e => exact absurd rfl hsaved
    | ok files =>
      rw [fetch_table_files_ok] at hsaved ⊢
      by_cases hf : files.isEmpty
      · rw [if_pos hf] at hsaved
        exact absurd rfl hsaved
      · rw [if_neg hf] at hsaved ⊢
        by_cases hs : (fetchLoop tbl pb files 1).isEmpty
        · rw [if_pos hs] at hsaved
          exact absurd (List.isEmpty_iff.mp hs) hsaved
        · rw [if_neg hs] at hsaved ⊢
          exact ⟨rfl, rfl⟩
  · intro tables resBeh t hnone hmem
    have := List.mem_filter.mp hmem
    rw [hnone] at this
    simp at this

/-- C5 witness: a raising file listing yields no part files and a `None`
aggregation; a single successful file yields the combined output. -/
theorem aggregate_none_or_view_check :
    (fetch_table_files "t" "ts" (Except.error ⟨"E", "x"⟩) wPb).ddf = none
    ∧ (fetch_table_files "orders" "ts" (Except.ok [wFD]) wPb).combined
        = some (combinedName "orders" "ts") := by
  refine ⟨((aggregate_none_or_view "t" "ts" (Except.error ⟨"E", "x"⟩) wPb).1 rfl).1, ?_⟩
  have hne : (fetch_table_files "orders" "ts" (Except.ok [wFD]) wPb).saved ≠ [] := by
    decide
  exact ((aggregate_none_or_view "orders" "ts" (Except.ok [wFD]) wPb).2.1 hne).2

/-- C6: the size estimator returns 0 when the catalog listing raises, when
the table is not found in the listing, or when listing the table's files
raises (it never propagates an exception — it is a total function);
otherwise it returns the sum of the `size` field of every file descriptor of
the table. A zero estimate contributes nothing to the pre-flight grand
total, and for a non-empty table list the pre-flight decision is the
operator's answer regardless of the estimates. -/
theorem estimate_size_policy (rem : Remote) (share schema table : String) :
    (∀ e, rem.listTablesRes = Except.error e →
        estimate_table_size_bytes rem share schema table = 0)
    ∧ (∀ ts, rem.listTablesRes = Except.ok ts →
        ts.find? (matchTR share schema table) = none →
        estimate_table_size_bytes rem share schema table = 0)
    ∧ (∀ ts tgt e, rem.listTablesRes = Except.ok ts →
        ts.find? (matchTR share schema table) = some tgt →
        rem.listFilesRes tgt = Except.error e →
        estimate_table_size_bytes rem share schema table = 0)
    ∧ (∀ ts tgt files, rem.listTablesRes = Except.ok ts →
        ts.find? (matchTR share schema table) = some tgt →
        rem.listFilesRes tgt = Except.ok files →
        estimate_table_size_bytes rem share schema table = (files.map FD.size).sum)
    ∧ (∀ (t : TRef) (tables : List TRef),
        estimate_table_size_bytes rem t.share t.schema t.name = 0 →
        preflightTotal rem (t :: tables) = preflightTotal rem tables)
    ∧ (∀ (tables : List TRef) (inp : Option String), tables ≠ [] →
        preflight_estimate_and_confirm rem tables inp = answerAffirmative inp) := by
  have hstep : ∀ ts, rem.listTablesRes = Except.ok ts →
      estimate_table_size_bytes rem share schema table =
        (match ts.find? (matchTR share schema table) with
         | none => (0 : Int)
         | some tgt =>
           match rem.listFilesRes tgt with
           | Except.error _ => 0
           | Except.ok files => (files.map FD.size).sum) := by
    intro ts hts
    rw [estimate_table_size_bytes, hts]
  refine ⟨?_, ?_, ?_, ?_, ?_, ?_⟩
  · intro e he
    rw [estimate_table_size_bytes, he]
  · intro ts hts hfind
    rw [hstep ts hts, hfind]
  · intro ts tgt e hts hfind hfiles
    rw [hstep ts hts, hfind]
    show (match rem.listFilesRes tgt with
      | Except.error _ => (0 : Int)
      | Except.ok files => (files.map FD.size).sum) = (0 : Int)
    rw [hfiles]
  · intro ts tgt files hts hfind hfiles
    rw [hstep ts hts, hfind]
    show (match rem.listFilesRes tgt with
      | Except.error _ => (0 : Int)
      | Except.ok fs => (fs.map FD.size).sum) = (files.map FD.size).sum
    rw [hfiles]
  · intro t tables hzero
    rw [preflightTotal, preflightTotal, List.map_cons, List.sum_cons, hzero, zero_add]
  · intro tables inp hne
    rw [preflight_estimate_and_confirm]
    simp [hne]

/-- C6 witness: the concrete remote lists two tables; the files of the first
sum to 15, listing the files of the second raises so its estimate is 0, and
it contributes 0 to the grand total while the run proceeds to the prompt. -/
theorem estimate_size_policy_check :
    estimate_table_size_bytes wRem "s" "sch" "orders" = 15
    ∧ estimate_table_size_bytes wRem "s" "sch" "items" = 0
    ∧ preflight_estimate_and_confirm wRem [wT1, wT2] (some "n") = answerAffirmative (some "n") := by
  refine ⟨?_, ?_, ?_⟩
  · have h := (estimate_size_policy wRem "s" "sch" "orders").2.2.2.1
      [wT1, wT2] wT1 [wFD, ⟨"https://x/b", 5⟩] rfl (by decide) rfl
    rw [h]
    decide
  · exact (estimate_size_policy wRem "s" "sch" "items").2.2.1 [wT1, wT2] wT2
      ⟨"ConnectionError", "timeout"⟩ rfl (by decide) rfl
  · exact (estimate_size_policy wRem "s" "sch" "orders").2.2.2.2.2 [wT1, wT2] (some "n")
      (by decide)

/-- C8: the pre-flight confirmation proceeds exactly when the stripped,
lowercased operator input is `"y"` or `"yes"` (so `y`/`yes` in any case);
end-of-input behaves as `"n"` and is refused; whenever the prompt returns
true the answer was affirmative; and on a non-affirmative answer `main`
skips the full fetch (`all_dfs = {}`) while keeping the sample dataframe
fetched before the prompt. -/
theorem confirm_affirmative_only (rem : Remote) :
    (∀ s : String, answerAffirmative (some s) = true ↔
        (pyLower (pyStrip s.data) = "y".data ∨ pyLower (pyStrip s.data) = "yes".data))
    ∧ answerAffirmative none = false
    ∧ (∀ (tables : List TRef) (inp : Option String),
        preflight_estimate_and_confirm rem tables inp = true → answerAffirmative inp = true)
    ∧ (∀ (α : Type) (tables : List TRef) (d : α) (inp : Option String)
          (fullRes : List (TRef × α)),
        answerAffirmative inp = false →
        improvedMain rem tables (some d) inp fullRes = ⟨some d, []⟩) := by
  refine ⟨?_, rfl, ?_, ?_⟩
  · intro s
    rw [answerAffirmative, normAnswer]
    simp
  · intro tables inp hpf
    rw [preflight_estimate_and_confirm] at hpf
    by_cases he : tables.isEmpty
    · rw [if_pos he] at hpf
      exact absurd hpf (by simp)
    · rw [if_neg he] at hpf
      exact hpf
  · intro α tables d inp fullRes hno
    rw [improvedMain]
    have hpf : preflight_estimate_and_confirm rem tables inp = false := by
      rw [preflight_estimate_and_confirm]
      by_cases he : tables.isEmpty
      · rw [if_pos he]
      · rw [if_neg he]
        exact hno
    rw [hpf]
    simp

/-- C8 witness: the answer `" YES "` (stripped, lowercased) is affirmative;
the answer `"no"` is not, and with it `main` keeps the sample but performs
no full fetch; EOF is refused. -/
theorem confirm_affirmative_only_check :
    answerAffirmative (some " YES ") = true
    ∧ answerAffirmative none = false
    ∧ improvedMain wRem [wT1, wT2] (some 5) (some "no") [(wT1, 5)]
        = ⟨some 5, ([] : List (TRef × Nat))⟩ := by
  refine ⟨?_, (confirm_affirmative_only wRem).2.1, ?_⟩
  · exact ((confirm_affirmative_only wRem).1 " YES ").mpr (Or.inr (by decide))
  · exact (confirm_affirmative_only wRem).2.2.2 Nat [wT1, wT2] 5 (some "no") [(wT1, 5)]
      (by decide)

theorem lexLt_append_left (p a b : List Char)
    (h : List.Lex (fun x y : Char => x < y) a b) :
    List.Lex (fun x y : Char => x < y) (p ++ a) (p ++ b) := by
  induction p with
  | nil => exact h
  | cons c cs ih => exact List.Lex.cons ih

theorem lexLt_append_right_same_len :
    ∀ (a b s : List Char), a.length = b.length →
      List.Lex (fun x y : Char => x < y) a b →
      List.Lex (fun x y : Char => x < y) (a ++ s) (b ++ s) := by
  intro a
  induction a with
  | nil =>
    intro b s hlen h
    cases b with
    | nil => cases h
    | cons y ys => simp at hlen
  | cons x xs ih =>
    intro b s hlen h
    cases b with
    | nil => cases h
    | cons y ys =>
      cases h with
      | rel hr => exact List.Lex.rel hr
      | cons ht => exact List.Lex.cons (ih ys s (by simpa using hlen) ht)

set_option maxHeartbeats 1000000 in
set_option maxRecDepth 10000 in
theorem pad2_lt : ∀ i : Nat, i < 100 → ∀ j : Nat, j < 100 → i < j →
    List.Lex (fun a b : Char => a < b) (pad2 i).data (pad2 j).data := by decide

theorem pad2_len : ∀ i : Nat, i < 100 → (pad2 i).data.length = 2 := by decide

theorem partName_data (tbl : String) (i : Nat) :
    (partName tbl i).data =
      (tbl.data ++ "_part_".data) ++ ((pad2 i).data ++ ".csv".data) := by
  show tbl.data ++ ("_part_".data ++ ((pad2 i).data ++ ".csv".data)) = _
  rw [List.append_assoc]

/-- C7 counterexample: with at least 100 files, the claimed lexical ordering
of part names fails — for listing positions 99 < 100, the name for 100
(`t_part_100.csv`) lexically precedes the name for 99 (`t_part_99.csv`),
because the two-digit zero-padding no longer pads three-digit indices. -/
theorem part_name_order_cex :
    (99 : Nat) < 100
    ∧ ¬ List.Lex (fun a b : Char => a < b) (partName "t" 99).data (partName "t" 100).data
    ∧ List.Lex (fun a b : Char => a < b) (partName "t" 100).data (partName "t" 99).data := by
  refine ⟨by decide, by decide, by decide⟩

/-- C7 (amended): part-file indices are assigned in the order of the remote
file listing (the saved names are `partName` of the ascending listing
positions of the successful files), and for every pair of positions
`i < j ≤ 99` the part name for `i` precedes the part name for `j` in lexical
order; the two-digit zero-padding guarantees this only up to index 99. -/
theorem part_name_order_amended (tbl : String) (pb : Nat → Bool) :
    (∀ (files : List FD) (start : Nat),
        fetchLoop tbl pb files start =
          ((List.range' start files.length).filter pb).map (partName tbl))
    ∧ (∀ i j : Nat, i < j → j ≤ 99 →
        List.Lex (fun a b : Char => a < b) (partName tbl i).data (partName tbl j).data) := by
  constructor
  · intro files
    induction files with
    | nil => intro start; rfl
    | cons f rest ih =>
      intro start
      rw [fetchLoop]
      have hr : List.range' start (f :: rest).length = start :: List.range' (start + 1) rest.length := rfl
      rw [hr]
      by_cases hpb : pb start
      · rw [if_pos hpb, List.filter_cons_of_pos (by exact hpb), List.map_cons, ih (start + 1)]
      · rw [if_neg hpb, List.filter_cons_of_neg (by simpa using hpb), ih (start + 1)]
  · intro i j hij hj
    have h1 := pad2_lt i (by omega) j (by omega) hij
    have hlen : (pad2 i).data.length = (pad2 j).data.length := by
      rw [pad2_len i (by omega), pad2_len j (by omega)]
    have h2 := lexLt_append_right_same_len (pad2 i).data (pad2 j).data ".csv".data hlen h1
    have h3 := lexLt_append_left (tbl.data ++ "_part_".data) _ _ h2
    rw [partName_data, partName_data]
    exact h3

/-- C7 witness: for the concrete per-file behaviour the loop assigns names in
listing order, and name 1 lexically precedes name 3. -/
theorem part_name_order_amended_check :
    fetchLoop "t" wPb [wFD, wFD, wFD] 1 = ((List.range' 1 3).filter wPb).map (partName "t")
    ∧ List.Lex (fun a b : Char => a < b) (partName "t" 1).data (partName "t" 3).data :=
  ⟨(part_name_order_amended "t" wPb).1 [wFD, wFD, wFD] 1,
   (part_name_order_amended "t" wPb).2 1 3 (by decide) (by decide)⟩

theorem outName_data (t : TRef) (ts : String) :
    (outName t ts).data = (t.name.data ++ "_".data) ++ (ts.data ++ ".parquet".data) := by
  show t.name.data ++ ("_".data ++ (ts.data ++ ".parquet".data)) = _
  rw [List.append_assoc]

theorem outName_ts_inj (t1 t2 : TRef) (ts1 ts2 : String) (hlen : ts1.length = ts2.length)
    (h : outName t1 ts1 = outName t2 ts2) : ts1 = ts2 := by
  have hd := congrArg String.data h
  rw [outName_data, outName_data] at hd
  have hlen2 : (ts1.data ++ ".parquet".data).length = (ts2.data ++ ".parquet".data).length := by
    rw [List.length_append, List.length_append]
    have hdl : ts1.data.length = ts2.data.length := hlen
    rw [hdl]
  have h2 := (List.append_inj' hd hlen2).2
  have h3 := List.append_cancel_right h2
  cases ts1
  cases ts2
  exact congrArg String.mk h3

theorem lookupFile_write_eq {α : Type} (st : List (String × α)) (n : String) (d : α) :
    lookupFile (writeOut st n d) n = some d := by
  simp [lookupFile, writeOut]

theorem lookupFile_write_ne {α : Type} (st : List (String × α)) (n m : String) (d : α)
    (h : n ≠ m) : lookupFile (writeOut st n d) m = lookupFile st m := by
  simp [lookupFile, writeOut, h]

theorem runStore_preserves {α : Type} (beh : TRef → Option α) (ts : String) (m : String) :
    ∀ (tables : List TRef) (st : List (String × α)),
      (∀ t : TRef, outName t ts ≠ m) →
      lookupFile (runStore beh ts tables st) m = lookupFile st m := by
  intro tables
  induction tables with
  | nil => intro st _; rfl
  | cons t rest ih =>
    intro st h
    cases hb : beh t with
    | some d =>
      simp only [runStore, hb]
      rw [ih (writeOut st (outName t ts) d) h,
        lookupFile_write_ne st (outName t ts) m d (h t)]
    | none =>
      simp only [runStore, hb]
      exact ih st h

theorem runStore_keeps {α : Type} (beh : TRef → Option α) (ts : String) :
    ∀ (tables : List TRef) (st : List (String × α)) (m : String),
      (∃ d, lookupFile st m = some d) →
      ∃ d, lookupFile (runStore beh ts tables st) m = some d := by
  intro tables
  induction tables with
  | nil => intro st m h; exact h
  | cons t rest ih =>
    intro st m h
    cases hb : beh t with
    | some d =>
      simp only [runStore, hb]
      apply ih
      by_cases hnm : outName t ts = m
      · rw [← hnm]
        exact ⟨d, lookupFile_write_eq st (outName t ts) d⟩
      · rw [lookupFile_write_ne st (outName t ts) m d hnm]
        exact h
    | none =>
      simp only [runStore, hb]
      exact ih st m h

theorem runStore_writes {α : Type} (beh : TRef → Option α) (ts : String) :
    ∀ (tables : List TRef) (st : List (String × α)) (t : TRef), t ∈ tables →
      ∀ d, beh t = some d →
      ∃ d2, lookupFile (runStore beh ts tables st) (outName t ts) = some d2 := by
  intro tables
  induction tables with
  | nil => intro st t ht; exact absurd ht (List.not_mem_nil t)
  | cons u rest ih =>
    intro st t ht d hd
    rcases List.mem_cons.mp ht with heq | hmem
    · subst heq
      cases hb : beh t with
      | some d2 =>
        simp only [runStore, hb]
        apply runStore_keeps
        exact ⟨d2, lookupFile_write_eq st (outName t ts) d2⟩
      | none =>
        rw [hb] at hd
        cases hd
    · cases hb : beh u with
      | some d2 =>
        simp only [runStore, hb]
        exact ih (writeOut st (outName u ts) d2) t hmem d hd
      | none =>
        simp only [runStore, hb]
        exact ih st t hmem d hd

/-- C9: each run writes the timestamped parquet of every successful table
before moving on; given two runs whose timestamps differ (and have the usual
fixed format length), the second run's writes leave every file named with
the first run's timestamp untouched, every table successfully fetched in the
second run has its new timestamped file present afterwards, and every table
successfully fetched in the first run already had its file present at the
end of run one. -/
theorem timestamped_outputs_preserved {α : Type} (tables1 tables2 : List TRef)
    (beh1 beh2 : TRef → Option α) (ts1 ts2 : String) (st0 : List (String × α))
    (hlen : ts1.length = ts2.length) (hne : ts1 ≠ ts2) :
    (∀ t : TRef,
        lookupFile (runStore beh2 ts2 tables2 (runStore beh1 ts1 tables1 st0)) (outName t ts1)
          = lookupFile (runStore beh1 ts1 tables1 st0) (outName t ts1))
    ∧ (∀ t ∈ tables2, ∀ d, beh2 t = some d →
        ∃ d2, lookupFile (runStore beh2 ts2 tables2 (runStore beh1 ts1 tables1 st0))
          (outName t ts2) = some d2)
    ∧ (∀ t ∈ tables1, ∀ d, beh1 t = some d →
        ∃ d1, lookupFile (runStore beh1 ts1 tables1 st0) (outName t ts1) = some d1) := by
  refine ⟨?_, ?_, ?_⟩
  · intro t
    apply runStore_preserves
    intro t2 heq
    exact hne (outName_ts_inj t2 t ts2 ts1 hlen.symm heq).symm
  · intro t ht d hd
    exact runStore_writes beh2 ts2 tables2 (runStore beh1 ts1 tables1 st0) t ht d hd
  · intro t ht d hd
    exact runStore_writes beh1 ts1 tables1 st0 t ht d hd

/-- C9 witness: two concrete runs over the same table with different
15-character timestamps — the second run does not touch the first run's
output file. -/
theorem timestamped_outputs_preserved_check :
    lookupFile
        (runStore (fun _ => some 2) "20240102_000000" [wT1]
          (runStore (fun _ => some 1) "20240101_000000" [wT1] ([] : List (String × Nat))))
        (outName wT1 "20240101_000000")
      = lookupFile (runStore (fun _ => some 1) "20240101_000000" [wT1] [])
          (outName wT1 "20240101_000000") :=
  (timestamped_outputs_preserved [wT1] [wT1] (fun _ => some 1) (fun _ => some 2)
    "20240101_000000" "20240102_000000" [] (by decide) (by decide)).1 wT1
